import Mathlib

/-!
Verification of the quality-controlled audio production pipeline of dj-cli:
the audio quality analyzer (`src/audio_quality_analyzer.py`), the mastering
chain (`src/advanced_mastering.py`, in particular the look-ahead limiter of
pass 5), and the regeneration/quality-control loop of the compiler
(`src/jdcl_compiler.py`).

Sample values are embedded as exact rationals (the Python code computes with
floats; all claims under study are about exact arithmetic structure, not
rounding).  Decibel conversions (`20*log10`) and the limiter's smoothing
coefficients (`1 - exp(-1/n)`) are embedded over the reals.
-/

namespace DjCli

/-! ### AudioQualityReport (audio_quality_analyzer.py, class AudioQualityReport)

One field per numeric attribute set by `AudioQualityReport.__init__`
(`issues`/`warnings`, which are lists of strings, are omitted: no claim and no
arithmetic reads them).  Note there is no `frequency_balance` field: the
constructor never assigns such an attribute (the name appears only as a
dictionary key built inside `to_dict`), which is why the
`hasattr(report, 'frequency_balance')` guard in `_calculate_score` is always
false on these reports. -/
structure AudioQualityReport where
  peak_level_db : ℚ := 0
  rms_level_db : ℚ := 0
  dynamic_range_db : ℚ := 0
  crest_factor_db : ℚ := 0
  clipping_percentage : ℚ := 0
  saturation_count : ℕ := 0
  near_clipping_percentage : ℚ := 0
  silence_gaps : List (ℚ × ℚ) := []
  total_silence_percentage : ℚ := 0
  longest_silence_duration : ℚ := 0
  silence_gap_count : ℕ := 0
  spectral_centroid : ℚ := 0
  spectral_rolloff : ℚ := 0
  spectral_flatness : ℚ := 0
  spectral_flux : ℚ := 0
  sub_bass_energy : ℚ := 0
  bass_energy : ℚ := 0
  low_mid_energy : ℚ := 0
  mid_energy : ℚ := 0
  high_mid_energy : ℚ := 0
  high_energy : ℚ := 0
  stereo_width : ℚ := 0
  phase_correlation : ℚ := 0
  integrated_lufs : ℚ := 0
  true_peak_db : ℚ := 0
  loudness_range_lu : ℚ := 0
  overall_score : ℚ := 0
  passed : Bool := false

/-- The report freshly constructed by `AudioQualityReport.__init__`: every
numeric metric is `0.0`, `passed` is `False`. -/
def initReport : AudioQualityReport := {}

/-! ### `_calculate_score` (audio_quality_analyzer.py, lines 405-473)

Each penalty below is one `score -= ...` statement, in source order, with the
threshold constants inlined from the `self.thresholds` dict of
`AudioQualityAnalyzer.__init__`:
`clipping_max_percentage = 0.001`, `silence_max_percentage = 5.0`,
`silence_max_gap_seconds = 0.8`, `dynamic_range_min_db = 12.0`,
`peak_max_db = -0.3`, `rms_min_db = -25.0`, `rms_max_db = -6.0`,
`spectral_flatness_min = 0.15`, `phase_correlation_min = 0.7`,
`stereo_width_min = 40.0`.  The conditions do not depend on the running
score, so the sequential subtraction equals subtracting the sum. -/

/-- Penalty 1, clipping: `score -= min(60.0, clipping_percentage * 1000)`.  -/
def penClipping (r : AudioQualityReport) : ℚ :=
  if (1 : ℚ)/1000 < r.clipping_percentage then min 60 (r.clipping_percentage * 1000) else 0

/-- Penalty 2, total silence: `score -= min(40.0, excess * 5)`. -/
def penSilence (r : AudioQualityReport) : ℚ :=
  if 5 < r.total_silence_percentage then min 40 ((r.total_silence_percentage - 5) * 5) else 0

/-- Penalty 3, longest silence gap: `score -= min(35.0, (longest - 0.8) * 20)`. -/
def penLongGap (r : AudioQualityReport) : ℚ :=
  if (4 : ℚ)/5 < r.longest_silence_duration then
    min 35 ((r.longest_silence_duration - 4/5) * 20) else 0

/-- Penalty 4, dynamic range: `score -= min(30.0, (12 - dynamic_range) * 3)`. -/
def penDynRange (r : AudioQualityReport) : ℚ :=
  if r.dynamic_range_db < 12 then min 30 ((12 - r.dynamic_range_db) * 3) else 0

/-- Penalty 5, peak too hot: `score -= min(30.0, (peak - (-0.3)) * 20)`. -/
def penPeak (r : AudioQualityReport) : ℚ :=
  if -(3 : ℚ)/10 < r.peak_level_db then min 30 ((r.peak_level_db - (-(3 : ℚ)/10)) * 20) else 0

/-- Penalty 6a, RMS too quiet: `score -= min(20.0, (-25 - rms) * 1.5)`. -/
def penRmsQuiet (r : AudioQualityReport) : ℚ :=
  if r.rms_level_db < -25 then min 20 ((-25 - r.rms_level_db) * (3/2)) else 0

/-- Penalty 6b, RMS too loud: `score -= min(10.0, (rms - (-6)) * 2)`. -/
def penRmsLoud (r : AudioQualityReport) : ℚ :=
  if -6 < r.rms_level_db then min 10 ((r.rms_level_db - (-6)) * 2) else 0

/-- Penalty 7, spectral flatness: `score -= min(15.0, (0.15 - flatness) * 30)`. -/
def penFlatness (r : AudioQualityReport) : ℚ :=
  if r.spectral_flatness < (3 : ℚ)/20 then min 15 (((3 : ℚ)/20 - r.spectral_flatness) * 30) else 0

/-- Penalty 8, phase correlation: `score -= min(25.0, (0.7 - correlation) * 40)`. -/
def penPhase (r : AudioQualityReport) : ℚ :=
  if r.phase_correlation < (7 : ℚ)/10 then
    min 25 (((7 : ℚ)/10 - r.phase_correlation) * 40) else 0

/-- Penalty 9, stereo width: `score -= min(15.0, (40 - width) / 2)`. -/
def penWidth (r : AudioQualityReport) : ℚ :=
  if r.stereo_width < 40 then min 15 ((40 - r.stereo_width) / 2) else 0

/-- Penalty 11, LUFS loudness and true peak, guarded by
`if LUFS_AVAILABLE and report.integrated_lufs != 0.0`.  (`LUFS_AVAILABLE` is a
module-level flag set by the `pyloudnorm` import attempt, embedded here as the
parameter `lufsAvail`.)  Penalty 10 (frequency balance) is omitted because its
guard `hasattr(report, 'frequency_balance')` is false for every
`AudioQualityReport` instance, as noted on the structure above. -/
def penLufs (lufsAvail : Bool) (r : AudioQualityReport) : ℚ :=
  if lufsAvail = true ∧ r.integrated_lufs ≠ 0 then
    (if r.integrated_lufs < -20 then min 20 ((-20 - r.integrated_lufs) * 2)
     else if -6 < r.integrated_lufs then min 15 ((r.integrated_lufs + 6) * 3) else 0)
    + (if -(1 : ℚ)/2 < r.true_peak_db then min 25 ((r.true_peak_db + 1/2) * 20) else 0)
  else 0

/-- The `overall_score` assigned by `_calculate_score`: start at `100.0`,
apply the penalty subtractions above in source order, then
`report.overall_score = max(0.0, score)`. -/
def calculateScore (lufsAvail : Bool) (r : AudioQualityReport) : ℚ :=
  max 0 (100 - penClipping r - penSilence r - penLongGap r - penDynRange r
    - penPeak r - penRmsQuiet r - penRmsLoud r - penFlatness r - penPhase r
    - penWidth r - penLufs lufsAvail r)

/-- The verdict assigned by `_calculate_score`:
`report.passed = report.overall_score >= 85.0`. -/
def calculatePassed (lufsAvail : Bool) (r : AudioQualityReport) : Bool :=
  if 85 ≤ calculateScore lufsAvail r then true else false

/-! ### The regeneration loop (jdcl_compiler.py, `_compile_with_quality_control`)

The loop body synthesizes a fresh candidate each iteration
(`self._compile_composition_base`, randomized, so the attempt index is the
input: `synth : ℕ → α`), analyzes it (`score`/`passed` abstract the two report
fields the loop reads), keeps the best-so-far on strict score improvement,
breaks on the first passing report, and otherwise retries up to
`self.max_regeneration_attempts` iterations.  The state is
`(best_audio, best_score)` and, for resource accounting, the number of
synthesis calls made. -/

/-- `self.max_regeneration_attempts = 5` from `JDCLCompiler.__init__`. -/
def maxRegenerationAttempts : ℕ := 5

/-- One `if report.overall_score > best_score:` update of
`(best_audio, best_score)` for the candidate of attempt `i`. -/
def scoreUpdate {α : Type} (synth : ℕ → α) (score : α → ℚ)
    (st : Option α × ℚ) (i : ℕ) : Option α × ℚ :=
  if st.2 < score (synth i) then (some (synth i), score (synth i)) else st

/-- The `for attempt in range(...)` loop with quality analysis enabled:
`attempt` is the next attempt index, `fuel` the remaining iterations, `st` the
`(best_audio, best_score)` state, `calls` the synthesis calls made so far.
Returns the final state and the total synthesis-call count. -/
def qcGo {α : Type} (synth : ℕ → α) (score : α → ℚ) (passed : α → Bool) :
    ℕ → ℕ → Option α × ℚ → ℕ → (Option α × ℚ) × ℕ
  | _, 0, st, calls => (st, calls)
  | attempt, fuel + 1, st, calls =>
      let audio := synth attempt
      let st' := scoreUpdate synth score st attempt
      if passed audio then (st', calls + 1)
      else qcGo synth score passed (attempt + 1) fuel st' (calls + 1)

/-- `_compile_with_quality_control` up to the `audio = best_audio` line:
entry state is `best_audio = None`, `best_score = -1.0`.  With `enable_qa`
false the first iteration stores the candidate and breaks immediately (and
with `maxAttempts = 0` the `for` body never runs). -/
def compileWithQualityControl {α : Type} (enableQA : Bool) (synth : ℕ → α)
    (score : α → ℚ) (passed : α → Bool) (maxAttempts : ℕ) : (Option α × ℚ) × ℕ :=
  if enableQA then qcGo synth score passed 0 maxAttempts (none, -1) 0
  else if maxAttempts = 0 then ((none, -1), 0) else ((some (synth 0), -1), 1)

/-! ### Analyzer metric passes (audio_quality_analyzer.py)

`analyze` converts the buffer to normalized floats, then runs the metric
passes in order; the first pass, `_analyze_levels`, computes
`np.max(np.abs(samples))`, which raises `ValueError` on a zero-size array, so
on an empty buffer the analysis fails before any report is produced.  The
failure is embedded as `Option.none`. -/

/-- `np.max(np.abs(l))` for a non-empty list: since every `|x| ≥ 0`, the fold
with base 0 equals the maximum of the absolute values (and is 0 on the empty
list, where numpy raises instead — callers guard that case). -/
def npMaxAbs {α : Type} [LinearOrderedField α] (l : List α) : α :=
  l.foldr (fun x m => max |x| m) 0

/-- `_analyze_clipping`: percentage of samples with `|sample| >= 0.99`. -/
def clippingPercentage (s : List ℚ) : ℚ :=
  ((s.countP fun x => decide ((99 : ℚ)/100 ≤ |x|) : ℕ) : ℚ) * 100 / s.length

/-- `_analyze_clipping`: `saturation_count`, the raw count at the 0.99
threshold. -/
def saturationCount (s : List ℚ) : ℕ :=
  s.countP fun x => decide ((99 : ℚ)/100 ≤ |x|)

/-- `_analyze_clipping`: percentage of samples with `|sample| >= 0.95`. -/
def nearClippingPercentage (s : List ℚ) : ℚ :=
  ((s.countP fun x => decide ((19 : ℚ)/20 ≤ |x|) : ℕ) : ℚ) * 100 / s.length

/-- The per-sample silence test of `_analyze_silence_gaps`:
`abs(sample) < 0.001`. -/
def isSilentSample (x : ℚ) : Bool := decide (|x| < (1 : ℚ)/1000)

/-- The run-length scan of `_analyze_silence_gaps`: `i` is the loop index,
`inSil`/`start` mirror `in_silence`/`silence_start`, `acc` the
`silent_regions` accumulator.  A region closes when silence ends (or at the
end of the buffer while still in silence) and is recorded only when its
duration `(i - start) / sample_rate` exceeds 0.5 s. -/
def silenceGapsGo (sr : ℕ) : ℕ → Bool → ℕ → List (ℚ × ℚ) → List ℚ → List (ℚ × ℚ)
  | i, inSil, start, acc, [] =>
      if inSil = true then
        if (1 : ℚ)/2 < ((i - start : ℕ) : ℚ) / (sr : ℚ) then
          acc ++ [(((start : ℕ) : ℚ) / (sr : ℚ), ((i - start : ℕ) : ℚ) / (sr : ℚ))]
        else acc
      else acc
  | i, inSil, start, acc, x :: xs =>
      if isSilentSample x = true ∧ inSil = false then
        silenceGapsGo sr (i + 1) true i acc xs
      else if isSilentSample x = false ∧ inSil = true then
        silenceGapsGo sr (i + 1) false start
          (if (1 : ℚ)/2 < ((i - start : ℕ) : ℚ) / (sr : ℚ) then
            acc ++ [(((start : ℕ) : ℚ) / (sr : ℚ), ((i - start : ℕ) : ℚ) / (sr : ℚ))]
          else acc) xs
      else silenceGapsGo sr (i + 1) inSil start acc xs

/-- `report.silence_gaps` as computed by `_analyze_silence_gaps`. -/
def silenceGaps (sr : ℕ) (s : List ℚ) : List (ℚ × ℚ) :=
  silenceGapsGo sr 0 false 0 [] s

/-- `report.total_silence_percentage`: silent-sample count over total. -/
def totalSilencePercentage (s : List ℚ) : ℚ :=
  ((s.countP isSilentSample : ℕ) : ℚ) * 100 / s.length

/-- `report.longest_silence_duration`: `max(dur for _, dur in regions)` when
regions exist, else `0.0` (every recorded duration is positive, so the fold
with base 0 agrees with Python's `max` on the non-empty case). -/
def longestSilenceDuration (sr : ℕ) (s : List ℚ) : ℚ :=
  ((silenceGaps sr s).map Prod.snd).foldr max 0

/-- `report.silence_gap_count`. -/
def silenceGapCount (sr : ℕ) (s : List ℚ) : ℕ :=
  (silenceGaps sr s).length

/-- The four dB figures assigned by `_analyze_levels`. -/
structure LevelsResult where
  peak_level_db : ℝ
  rms_level_db : ℝ
  dynamic_range_db : ℝ
  crest_factor_db : ℝ

/-- The `1e-10` additive floor used before each `20*log10` conversion. -/
noncomputable def epsFloor : ℝ := 1 / 10 ^ (10 : ℕ)

/-- `20 * np.log10(x + 1e-10)`, the floored dB conversion of
`_analyze_levels`. -/
noncomputable def db20 (x : ℝ) : ℝ := 20 * Real.logb 10 (x + epsFloor)

/-- `rms = np.sqrt(np.mean(samples**2))` from `_analyze_levels`. -/
noncomputable def rmsOf (s : List ℚ) : ℝ :=
  Real.sqrt ((((s.map fun x => x ^ 2).sum : ℚ) : ℝ) / (s.length : ℝ))

/-- `_analyze_levels`.  `np.max` on the empty buffer raises (`none`); on a
non-empty buffer `peak = max(|sample|)` and `rms` are converted to dB with
the `1e-10` floor; `dynamic_range_db = peak_level_db - rms_level_db` and
`crest_factor_db = 20*log10(peak / (rms + 1e-10))`.  (In the crest field,
for `peak = 0` numpy's `log10(0)` is `-inf` while Mathlib's `Real.logb` of 0
is 0; no claim under study reads that field.) -/
noncomputable def analyzeLevels (s : List ℚ) : Option LevelsResult :=
  if s.isEmpty then none
  else some ⟨db20 ((npMaxAbs s : ℚ) : ℝ), db20 (rmsOf s),
    db20 ((npMaxAbs s : ℚ) : ℝ) - db20 (rmsOf s),
    20 * Real.logb 10 (((npMaxAbs s : ℚ) : ℝ) / (rmsOf s + epsFloor))⟩

/-- The metrics produced by the analysis passes embedded here (levels,
clipping, silence — the passes the error-handling claim cites). -/
structure MetricsResult where
  levels : LevelsResult
  clipping_percentage : ℚ
  near_clipping_percentage : ℚ
  saturation_count : ℕ
  silence_gaps : List (ℚ × ℚ)
  total_silence_percentage : ℚ
  longest_silence_duration : ℚ
  silence_gap_count : ℕ

/-- The `analyze` pipeline through its levels, clipping and silence passes:
pass 1 (`_analyze_levels`) raises on an empty buffer, so nothing after it
runs; on non-empty input the remaining passes are total. -/
noncomputable def analyzeMetrics (sr : ℕ) (s : List ℚ) : Option MetricsResult :=
  (analyzeLevels s).map fun lv =>
    ⟨lv, clippingPercentage s, nearClippingPercentage s, saturationCount s,
      silenceGaps sr s, totalSilencePercentage s, longestSilenceDuration sr s,
      silenceGapCount sr s⟩

/-! ### The all-silent ten-second buffer (C9) -/

/-- Ten seconds of digital silence at 96 kHz: 960000 zero samples. -/
def silentBuffer : List ℚ := List.replicate 960000 0

/-! ### The look-ahead limiter (advanced_mastering.py, `_apply_limiter`)

`_intelligent_limiting` applies pre-gain and then
`_apply_limiter(channel, ceiling=0.95, lookahead=int(0.005*sample_rate))`.
`_apply_limiter` edge-pads the signal, computes a raw per-sample gain from
the peak of the look-ahead window, smooths that gain with a one-pole
attack/release filter (`alpha = 1 - exp(-1/int(0.001*sr))` on attack,
`1 - exp(-1/int(0.050*sr))` on release), and multiplies the de-padded signal
by the smoothed gain.  The filter-coefficient arithmetic is generic in the
field so the gain computations can also be evaluated exactly over `ℚ`. -/

/-- `np.pad(x, (L, L), mode='edge')`: repeat the first and last samples. -/
def paddedEdge {α : Type} [LinearOrderedField α] (L : ℕ) (s : List α) : List α :=
  List.replicate L (s.headD 0) ++ s ++ List.replicate L (s.getLastD 0)

/-- The raw (pre-smoothing) gain array: ones over the padded length, with the
entry at `i + L` set to `ceiling / peak` whenever the look-ahead window
`padded[i : i + 2L]` peaks above the ceiling. -/
def limiterRawGain {α : Type} [LinearOrderedField α] (ceiling : α) (L : ℕ)
    (s : List α) : List α :=
  List.replicate L 1
    ++ (List.range s.length).map (fun i =>
        if ceiling < npMaxAbs (((paddedEdge L s).drop i).take (2 * L)) then
          ceiling / npMaxAbs (((paddedEdge L s).drop i).take (2 * L))
        else 1)
    ++ List.replicate L 1

/-- One step of the gain smoother: attack coefficient when the raw gain drops
below the running value, release coefficient otherwise. -/
def smoothStep {α : Type} [LinearOrderedField α] (aA aR prev g : α) : α :=
  if g < prev then aA * g + (1 - aA) * prev else aR * g + (1 - aR) * prev

/-- The smoothing recursion from index 1 on, carrying `smooth_gain[i-1]`. -/
def smoothGo {α : Type} [LinearOrderedField α] (aA aR : α) : α → List α → List α
  | _, [] => []
  | prev, g :: gs => smoothStep aA aR prev g :: smoothGo aA aR (smoothStep aA aR prev g) gs

/-- `smooth_gain`: `smooth_gain[0] = gain[0]`, then the one-pole recursion. -/
def smoothGain {α : Type} [LinearOrderedField α] (aA aR : α) : List α → List α
  | [] => []
  | g :: gs => g :: smoothGo aA aR g gs

/-- `_apply_limiter`: the output is `padded[L:-L] * smooth_gain[L:-L]`, i.e.
the original samples multiplied pointwise by the smoothed gain section. -/
def applyLimiter {α : Type} [LinearOrderedField α] (aA aR ceiling : α) (L : ℕ)
    (s : List α) : List α :=
  List.zipWith (fun x g => x * g) s ((smoothGain aA aR (limiterRawGain ceiling L s)).drop L)

/-- `lookahead_samples = int(0.005 * self.sample_rate)`. -/
def lookaheadSamples (sr : ℕ) : ℕ := sr * 5 / 1000

/-- `attack_samples = int(0.001 * self.sample_rate)`. -/
def attackSamples (sr : ℕ) : ℕ := sr / 1000

/-- `release_samples = int(0.050 * self.sample_rate)`. -/
def releaseSamples (sr : ℕ) : ℕ := sr * 50 / 1000

/-- The attack coefficient `1.0 - np.exp(-1.0 / attack_samples)`. -/
noncomputable def limiterAlphaA (sr : ℕ) : ℝ := 1 - Real.exp (-1 / (attackSamples sr : ℝ))

/-- The release coefficient `1.0 - np.exp(-1.0 / release_samples)`. -/
noncomputable def limiterAlphaR (sr : ℕ) : ℝ := 1 - Real.exp (-1 / (releaseSamples sr : ℝ))

/-- `ceiling = 0.95` hard-coded in `_intelligent_limiting`. -/
noncomputable def limiterCeiling : ℝ := 95 / 100

/-- The pass-5 limiter exactly as `_intelligent_limiting` invokes it on one
channel at sample rate `sr`. -/
noncomputable def applyLimiterAt (sr : ℕ) (s : List ℝ) : List ℝ :=
  applyLimiter (limiterAlphaA sr) (limiterAlphaR sr) limiterCeiling (lookaheadSamples sr) s

/-! ### Band-split filtering (advanced_mastering.py, `_apply_multiband_eq` and
`_multi_band_compression`)

Both pass their order-4 Butterworth bandpass sections to
`scipy.signal.sosfilt`, a SINGLE forward pass of a cascade of second-order
sections in direct form II transposed with zero initial state.  The
coefficient values come from `scipy.signal.butter`, an external
floating-point design routine, so the sections are parameters of the
embedding; the application mode (forward-only versus the spec's
forward-backward) is what the code fixes. -/

/-- One second-order section `[b0, b1, b2, 1, a1, a2]` (scipy normalizes
`a0 = 1` for Butterworth designs). -/
structure SOS (α : Type) where
  b0 : α
  b1 : α
  b2 : α
  a1 : α
  a2 : α

/-- Direct form II transposed recursion of one section with carried state
`(s1, s2)`: `y = b0*x + s1`; `s1' = b1*x - a1*y + s2`; `s2' = b2*x - a2*y`. -/
def biquadGo {α : Type} [LinearOrderedField α] (c : SOS α) : α → α → List α → List α
  | _, _, [] => []
  | s1, s2, x :: xs =>
      (c.b0 * x + s1)
        :: biquadGo c (c.b1 * x - c.a1 * (c.b0 * x + s1) + s2)
             (c.b2 * x - c.a2 * (c.b0 * x + s1)) xs

/-- One section applied with zero initial state, as `sosfilt` does. -/
def biquad {α : Type} [LinearOrderedField α] (c : SOS α) (x : List α) : List α :=
  biquadGo c 0 0 x

/-- `scipy.signal.sosfilt(sos, x)`: the sections applied in cascade, one
forward pass. -/
def sosfilt {α : Type} [LinearOrderedField α] (secs : List (SOS α)) (x : List α) :
    List α :=
  secs.foldl (fun acc c => biquad c acc) x

/-- Modelled from the spec: the zero-phase band filtering the spec describes
("zero-phase (forward-backward) IIR Butterworth filtering"): run the filter
forward, reverse, run it forward again, reverse back. -/
def sosfiltForwardBackward {α : Type} [LinearOrderedField α] (secs : List (SOS α))
    (x : List α) : List α :=
  (sosfilt secs ((sosfilt secs x).reverse)).reverse

/-- The band summation of `_apply_multiband_eq`: start from zeros, add each
band's `sosfilt` extraction scaled by its style gain. -/
def applyMultibandEq {α : Type} [LinearOrderedField α]
    (bandFilters : List (List (SOS α) × α)) (x : List α) : List α :=
  bandFilters.foldl
    (fun out fg => List.zipWith (fun u v => u + v) out
      ((sosfilt fg.1 x).map fun v => v * fg.2))
    (List.replicate x.length 0)

/-! Shared facts about the penalties: each subtracted term is non-negative. -/

theorem penClipping_nonneg (r : AudioQualityReport) : 0 ≤ penClipping r := by
  unfold penClipping; split <;> [skip; rfl]
  exact le_min (by norm_num) (by nlinarith)

theorem penSilence_nonneg (r : AudioQualityReport) : 0 ≤ penSilence r := by
  unfold penSilence; split <;> [skip; rfl]
  exact le_min (by norm_num) (by nlinarith)

theorem penLongGap_nonneg (r : AudioQualityReport) : 0 ≤ penLongGap r := by
  unfold penLongGap; split <;> [skip; rfl]
  exact le_min (by norm_num) (by nlinarith)

theorem penDynRange_nonneg (r : AudioQualityReport) : 0 ≤ penDynRange r := by
  unfold penDynRange; split <;> [skip; rfl]
  exact le_min (by norm_num) (by nlinarith)

theorem penPeak_nonneg (r : AudioQualityReport) : 0 ≤ penPeak r := by
  unfold penPeak; split <;> [skip; rfl]
  exact le_min (by norm_num) (by nlinarith)

theorem penRmsQuiet_nonneg (r : AudioQualityReport) : 0 ≤ penRmsQuiet r := by
  unfold penRmsQuiet; split <;> [skip; rfl]
  exact le_min (by norm_num) (by nlinarith)

theorem penRmsLoud_nonneg (r : AudioQualityReport) : 0 ≤ penRmsLoud r := by
  unfold penRmsLoud; split <;> [skip; rfl]
  exact le_min (by norm_num) (by nlinarith)

theorem penFlatness_nonneg (r : AudioQualityReport) : 0 ≤ penFlatness r := by
  unfold penFlatness; split <;> [skip; rfl]
  exact le_min (by norm_num) (by nlinarith)

theorem penPhase_nonneg (r : AudioQualityReport) : 0 ≤ penPhase r := by
  unfold penPhase; split <;> [skip; rfl]
  exact le_min (by norm_num) (by nlinarith)

theorem penWidth_nonneg (r : AudioQualityReport) : 0 ≤ penWidth r := by
  unfold penWidth; split <;> [skip; rfl]
  exact le_min (by norm_num) (by nlinarith)

theorem penLufs_nonneg (lufsAvail : Bool) (r : AudioQualityReport) :
    0 ≤ penLufs lufsAvail r := by
  unfold penLufs
  split <;> [skip; rfl]
  have h1 : (0 : ℚ) ≤
      (if r.integrated_lufs < -20 then min 20 ((-20 - r.integrated_lufs) * 2)
       else if -6 < r.integrated_lufs then min 15 ((r.integrated_lufs + 6) * 3) else 0) := by
    split
    · exact le_min (by norm_num) (by nlinarith)
    · split
      · exact le_min (by norm_num) (by nlinarith)
      · rfl
  have h2 : (0 : ℚ) ≤
      (if -(1 : ℚ)/2 < r.true_peak_db then min 25 ((r.true_peak_db + 1/2) * 20) else 0) := by
    split
    · exact le_min (by norm_num) (by nlinarith)
    · rfl
  linarith

/-- The sum of all penalty subtractions is non-negative, so the pre-clamp
score never exceeds the starting value 100. -/
theorem penalties_nonneg (lufsAvail : Bool) (r : AudioQualityReport) :
    0 ≤ penClipping r + penSilence r + penLongGap r + penDynRange r + penPeak r
      + penRmsQuiet r + penRmsLoud r + penFlatness r + penPhase r + penWidth r
      + penLufs lufsAvail r := by
  have := penClipping_nonneg r
  have := penSilence_nonneg r
  have := penLongGap_nonneg r
  have := penDynRange_nonneg r
  have := penPeak_nonneg r
  have := penRmsQuiet_nonneg r
  have := penRmsLoud_nonneg r
  have := penFlatness_nonneg r
  have := penPhase_nonneg r
  have := penWidth_nonneg r
  have := penLufs_nonneg lufsAvail r
  linarith

/-- C5: for every report (in particular the one the analyzer computes from any
finite input buffer, all-zero and all-ones buffers included), the overall score
lies in [0, 100]: scoring starts at 100, every penalty subtracted under its
threshold test is non-negative, and the result is clamped from below by
`max(0.0, score)`. -/
theorem calculateScore_mem_Icc (lufsAvail : Bool) (r : AudioQualityReport) :
    calculateScore lufsAvail r ∈ Set.Icc (0 : ℚ) 100 := by
  constructor
  · exact le_max_left 0 _
  · have h := penalties_nonneg lufsAvail r
    unfold calculateScore
    rw [max_le_iff]
    constructor <;> linarith

/-- C6: any report whose stereo metrics still carry their `__init__` values
(`stereo_width = 0.0`, `phase_correlation = 0.0`) — which is what `analyze`
produces for every 1-channel buffer, since `_analyze_stereo` runs only when
`audio.channels == 2` — scores at most 60 (the full 25-point phase penalty and
the full 15-point width penalty both fire) and therefore never passes the 85.0
threshold. -/
theorem mono_report_never_passes (lufsAvail : Bool) (r : AudioQualityReport)
    (hw : r.stereo_width = 0) (hp : r.phase_correlation = 0) :
    calculateScore lufsAvail r ≤ 60 ∧ calculatePassed lufsAvail r = false := by
  have hphase : penPhase r = 25 := by
    unfold penPhase
    rw [hp, if_pos (by norm_num)]
    norm_num
  have hwidth : penWidth r = 15 := by
    unfold penWidth
    rw [hw, if_pos (by norm_num)]
    norm_num
  have hle : calculateScore lufsAvail r ≤ 60 := by
    have := penClipping_nonneg r
    have := penSilence_nonneg r
    have := penLongGap_nonneg r
    have := penDynRange_nonneg r
    have := penPeak_nonneg r
    have := penRmsQuiet_nonneg r
    have := penRmsLoud_nonneg r
    have := penFlatness_nonneg r
    have := penLufs_nonneg lufsAvail r
    unfold calculateScore
    rw [max_le_iff]
    constructor <;> [norm_num; linarith [hphase, hwidth]]
  refine ⟨hle, ?_⟩
  unfold calculatePassed
  rw [if_neg]
  intro h
  linarith

/-- C6 witness: the freshly initialized report (the state every mono analysis
starts from) indeed fails, via `mono_report_never_passes` at `initReport`. -/
theorem mono_report_never_passes_witness :
    initReport.stereo_width = 0 ∧ initReport.phase_correlation = 0 ∧
      (calculateScore true initReport ≤ 60 ∧ calculatePassed true initReport = false) :=
  ⟨rfl, rfl, mono_report_never_passes true initReport rfl rfl⟩

/-- C7: holding every other field fixed, the overall score is monotone
non-increasing in `clipping_percentage` and in `total_silence_percentage`:
raising either metric never raises the score. -/
theorem calculateScore_antitone_clipping_silence (lufsAvail : Bool)
    (r : AudioQualityReport) (c₁ c₂ s₁ s₂ : ℚ) (hc : c₁ ≤ c₂) (hs : s₁ ≤ s₂) :
    calculateScore lufsAvail { r with clipping_percentage := c₂ }
        ≤ calculateScore lufsAvail { r with clipping_percentage := c₁ } ∧
      calculateScore lufsAvail { r with total_silence_percentage := s₂ }
        ≤ calculateScore lufsAvail { r with total_silence_percentage := s₁ } := by
  constructor
  · have hpen : penClipping { r with clipping_percentage := c₁ }
        ≤ penClipping { r with clipping_percentage := c₂ } := by
      show (if (1 : ℚ)/1000 < c₁ then min 60 (c₁ * 1000) else 0)
          ≤ (if (1 : ℚ)/1000 < c₂ then min 60 (c₂ * 1000) else 0)
      split_ifs with h₁ h₂
      · exact min_le_min le_rfl (by nlinarith)
      · exact absurd (lt_of_lt_of_le h₁ hc) h₂
      · exact le_min (by norm_num) (by nlinarith)
      · exact le_rfl
    have e₁ : calculateScore lufsAvail { r with clipping_percentage := c₁ }
        = max 0 (100 - penClipping { r with clipping_percentage := c₁ } - penSilence r
            - penLongGap r - penDynRange r - penPeak r - penRmsQuiet r - penRmsLoud r
            - penFlatness r - penPhase r - penWidth r - penLufs lufsAvail r) := rfl
    have e₂ : calculateScore lufsAvail { r with clipping_percentage := c₂ }
        = max 0 (100 - penClipping { r with clipping_percentage := c₂ } - penSilence r
            - penLongGap r - penDynRange r - penPeak r - penRmsQuiet r - penRmsLoud r
            - penFlatness r - penPhase r - penWidth r - penLufs lufsAvail r) := rfl
    rw [e₁, e₂]
    exact max_le_max le_rfl (by linarith)
  · have hpen : penSilence { r with total_silence_percentage := s₁ }
        ≤ penSilence { r with total_silence_percentage := s₂ } := by
      show (if 5 < s₁ then min 40 ((s₁ - 5) * 5) else 0)
          ≤ (if 5 < s₂ then min 40 ((s₂ - 5) * 5) else 0)
      split_ifs with h₁ h₂
      · exact min_le_min le_rfl (by nlinarith)
      · exact absurd (lt_of_lt_of_le h₁ hs) h₂
      · exact le_min (by norm_num) (by nlinarith)
      · exact le_rfl
    have e₁ : calculateScore lufsAvail { r with total_silence_percentage := s₁ }
        = max 0 (100 - penClipping r - penSilence { r with total_silence_percentage := s₁ }
            - penLongGap r - penDynRange r - penPeak r - penRmsQuiet r - penRmsLoud r
            - penFlatness r - penPhase r - penWidth r - penLufs lufsAvail r) := rfl
    have e₂ : calculateScore lufsAvail { r with total_silence_percentage := s₂ }
        = max 0 (100 - penClipping r - penSilence { r with total_silence_percentage := s₂ }
            - penLongGap r - penDynRange r - penPeak r - penRmsQuiet r - penRmsLoud r
            - penFlatness r - penPhase r - penWidth r - penLufs lufsAvail r) := rfl
    rw [e₁, e₂]
    exact max_le_max le_rfl (by linarith)

/-- C7 witness: `calculateScore_antitone_clipping_silence` applied at the fresh
report with clipping 0 % against 50 % and silence 0 % against 50 %. -/
theorem calculateScore_antitone_witness :
    (0 : ℚ) ≤ 50 ∧
      (calculateScore true { initReport with clipping_percentage := 50 }
          ≤ calculateScore true { initReport with clipping_percentage := 0 } ∧
        calculateScore true { initReport with total_silence_percentage := 50 }
          ≤ calculateScore true { initReport with total_silence_percentage := 0 }) :=
  ⟨by norm_num,
    calculateScore_antitone_clipping_silence true initReport 0 50 0 50
      (by norm_num) (by norm_num)⟩

/-- C10: the score and verdict do not depend on the six band-energy fields:
the frequency-balance penalty of `_calculate_score` is guarded by
`hasattr(report, 'frequency_balance')`, an attribute no `AudioQualityReport`
ever possesses, so two reports differing only in the band energies score
identically. -/
theorem calculateScore_ignores_band_energies (lufsAvail : Bool)
    (r : AudioQualityReport) (b₁ b₂ b₃ b₄ b₅ b₆ : ℚ) :
    calculateScore lufsAvail
        { r with sub_bass_energy := b₁, bass_energy := b₂, low_mid_energy := b₃,
                 mid_energy := b₄, high_mid_energy := b₅, high_energy := b₆ }
        = calculateScore lufsAvail r ∧
      calculatePassed lufsAvail
        { r with sub_bass_energy := b₁, bass_energy := b₂, low_mid_energy := b₃,
                 mid_energy := b₄, high_mid_energy := b₅, high_energy := b₆ }
        = calculatePassed lufsAvail r :=
  ⟨rfl, rfl⟩

/-- When no attempt in the window passes, the loop runs to exhaustion and its
state is the fold of the best-so-far update over the attempt indices. -/
theorem qcGo_all_fail {α : Type} (synth : ℕ → α) (score : α → ℚ) (passed : α → Bool) :
    ∀ (fuel attempt : ℕ) (st : Option α × ℚ) (calls : ℕ),
      (∀ k, k < fuel → passed (synth (attempt + k)) = false) →
      qcGo synth score passed attempt fuel st calls
        = (List.foldl (scoreUpdate synth score) st (List.range' attempt fuel), calls + fuel) := by
  intro fuel
  induction fuel with
  | zero => intro attempt st calls _; rfl
  | succ n ih =>
      intro attempt st calls hfail
      have h0 : passed (synth attempt) = false := by
        have := hfail 0 (Nat.succ_pos n)
        simpa using this
      show (if passed (synth attempt) then _ else _) = _
      rw [h0]
      simp only [Bool.false_eq_true, if_false]
      rw [ih (attempt + 1) (scoreUpdate synth score st attempt) (calls + 1)
        (fun k hk => by
          have := hfail (k + 1) (Nat.succ_lt_succ hk)
          simpa [Nat.add_assoc, Nat.add_comm 1 k] using this)]
      rw [List.range'_succ]
      simp [List.foldl_cons]
      omega

/-- If attempt `attempt + j` is the first passing attempt in the window, the
loop breaks right after it: the state is the fold over the `j + 1` executed
attempts and exactly `j + 1` further synthesis calls were made. -/
theorem qcGo_first_pass {α : Type} (synth : ℕ → α) (score : α → ℚ) (passed : α → Bool) :
    ∀ (j fuel attempt : ℕ) (st : Option α × ℚ) (calls : ℕ),
      (∀ k, k < j → passed (synth (attempt + k)) = false) →
      passed (synth (attempt + j)) = true →
      j < fuel →
      qcGo synth score passed attempt fuel st calls
        = (List.foldl (scoreUpdate synth score) st (List.range' attempt (j + 1)),
           calls + j + 1) := by
  intro j
  induction j with
  | zero =>
      intro fuel attempt st calls _ hpass hlt
      obtain ⟨n, rfl⟩ : ∃ n, fuel = n + 1 := ⟨fuel - 1, by omega⟩
      show (if passed (synth attempt) then _ else _) = _
      rw [show passed (synth attempt) = true by simpa using hpass]
      simp [List.range'_succ, List.range'_zero, scoreUpdate]
  | succ m ih =>
      intro fuel attempt st calls hfail hpass hlt
      obtain ⟨n, rfl⟩ : ∃ n, fuel = n + 1 := ⟨fuel - 1, by omega⟩
      have h0 : passed (synth attempt) = false := by
        have := hfail 0 (Nat.succ_pos m)
        simpa using this
      show (if passed (synth attempt) then _ else _) = _
      rw [h0]
      simp only [Bool.false_eq_true, if_false]
      rw [ih n (attempt + 1) (scoreUpdate synth score st attempt) (calls + 1)
        (fun k hk => by
          have := hfail (k + 1) (Nat.succ_lt_succ hk)
          simpa [Nat.add_assoc, Nat.add_comm 1 k] using this)
        (by
          have := hpass
          rw [show attempt + 1 + m = attempt + (m + 1) by omega]
          exact this)
        (by omega)]
      conv_rhs => rw [List.range'_succ, List.foldl_cons]
      simp only [Prod.mk.injEq]
      exact ⟨trivial, by omega⟩

/-- The synthesis-call counter grows by at most the remaining fuel. -/
theorem qcGo_calls_le {α : Type} (synth : ℕ → α) (score : α → ℚ) (passed : α → Bool) :
    ∀ (fuel attempt : ℕ) (st : Option α × ℚ) (calls : ℕ),
      (qcGo synth score passed attempt fuel st calls).2 ≤ calls + fuel := by
  intro fuel
  induction fuel with
  | zero => intro attempt st calls; exact Nat.le_refl _
  | succ n ih =>
      intro attempt st calls
      simp only [qcGo]
      split
      · show calls + 1 ≤ calls + (n + 1)
        omega
      · exact le_trans (ih (attempt + 1) (scoreUpdate synth score st attempt) (calls + 1))
          (by omega)

/-- Once the best-so-far candidate is non-null it stays non-null. -/
theorem qcGo_isSome_of_isSome {α : Type} (synth : ℕ → α) (score : α → ℚ)
    (passed : α → Bool) :
    ∀ (fuel attempt : ℕ) (st : Option α × ℚ) (calls : ℕ),
      st.1.isSome = true →
      ((qcGo synth score passed attempt fuel st calls).1.1).isSome = true := by
  intro fuel
  induction fuel with
  | zero => intro attempt st calls h; exact h
  | succ n ih =>
      intro attempt st calls h
      have hst' : (scoreUpdate synth score st attempt).1.isSome = true := by
        unfold scoreUpdate
        split
        · rfl
        · exact h
      simp only [qcGo]
      split
      · exact hst'
      · exact ih (attempt + 1) _ (calls + 1) hst'

/-- Folding the best-so-far update over attempts `0, …, n-1` from the entry
state `(None, -1.0)` selects the earliest attempt achieving the maximum score:
the first attempt always replaces the initial state because every score is
`≥ 0 > -1`, and later attempts replace it only on strict improvement. -/
theorem foldl_scoreUpdate_spec {α : Type} (synth : ℕ → α) (score : α → ℚ)
    (hsc : ∀ a, 0 ≤ score a) :
    ∀ n : ℕ, 0 < n →
      ∃ j, j < n ∧
        List.foldl (scoreUpdate synth score) (none, -1) (List.range n)
          = (some (synth j), score (synth j)) ∧
        (∀ i, i < n → score (synth i) ≤ score (synth j)) ∧
        (∀ i, i < j → score (synth i) < score (synth j)) := by
  intro n
  induction n with
  | zero => intro h; exact absurd h (lt_irrefl 0)
  | succ n ih =>
      intro _
      by_cases hn : n = 0
      · subst hn
        refine ⟨0, Nat.zero_lt_one, ?_, ?_, ?_⟩
        · have h0 : (-1 : ℚ) < score (synth 0) :=
            lt_of_lt_of_le (by norm_num) (hsc (synth 0))

          show scoreUpdate synth score (none, -1) 0 = _
          unfold scoreUpdate
          rw [if_pos h0]
        · intro i hi
          interval_cases i
          exact le_rfl
        · intro i hi
          exact absurd hi (Nat.not_lt_zero i)
      · obtain ⟨j, hj, hfold, hmax, hstrict⟩ := ih (Nat.pos_of_ne_zero hn)
        rw [List.range_succ, List.foldl_append, hfold]
        by_cases hlt : score (synth j) < score (synth n)
        · refine ⟨n, Nat.lt_succ_self n, ?_, ?_, ?_⟩
          · show scoreUpdate synth score _ n = _
            unfold scoreUpdate
            rw [if_pos hlt]
          · intro i hi
            rcases Nat.lt_succ_iff_lt_or_eq.mp hi with h | h
            · exact le_of_lt (lt_of_le_of_lt (hmax i h) hlt)
            · subst h; exact le_rfl
          · intro i hi
            exact lt_of_le_of_lt (hmax i hi) hlt
        · refine ⟨j, Nat.lt_succ_of_lt hj, ?_, ?_, hstrict⟩
          · show scoreUpdate synth score _ n = _
            unfold scoreUpdate
            rw [if_neg hlt]
          · intro i hi
            rcases Nat.lt_succ_iff_lt_or_eq.mp hi with h | h
            · exact hmax i h
            · subst h; exact not_lt.mp hlt

/-- C3: for every sequence of per-attempt scores in which no attempt passes,
the candidate the loop carries out (into repair and mastering) is the one
from the earliest attempt achieving the maximum score: the stored best is
replaced only on strict improvement (`report.overall_score > best_score`),
and the first attempt always becomes the initial best because `best_score`
starts at `-1.0`, below any possible analyzer score. -/
theorem controller_best_retention {α : Type} (synth : ℕ → α) (score : α → ℚ)
    (passed : α → Bool) (n : ℕ) (hn : 0 < n)
    (hfail : ∀ i, i < n → passed (synth i) = false)
    (hsc : ∀ a, 0 ≤ score a) :
    ∃ j, j < n ∧
      (compileWithQualityControl true synth score passed n).1
        = (some (synth j), score (synth j)) ∧
      (∀ i, i < n → score (synth i) ≤ score (synth j)) ∧
      (∀ i, i < j → score (synth i) < score (synth j)) := by
  obtain ⟨j, hj, hfold, hmax, hstrict⟩ := foldl_scoreUpdate_spec synth score hsc n hn
  refine ⟨j, hj, ?_, hmax, hstrict⟩
  unfold compileWithQualityControl
  rw [if_pos rfl,
    qcGo_all_fail synth score passed n 0 (none, -1) 0
      (fun k hk => by simpa using hfail k hk)]
  show List.foldl (scoreUpdate synth score) (none, -1) (List.range' 0 n) = _
  rw [← List.range_eq_range']
  exact hfold

/-- C3 witness: `controller_best_retention` at the spec's stub-analyzer
example — three attempts scoring 40, 70, 55, none passing — yields a best
candidate index `j` that dominates all three scores, which pins it to the
attempt scoring 70 (the loop's concrete result is checked by evaluation). -/
theorem controller_best_retention_witness :
    (compileWithQualityControl true (fun i : ℕ => i)
        (fun i => [(40 : ℚ), 70, 55].getD i 0) (fun _ => false) 3).1 = (some 1, 70) ∧
      (∃ j, j < 3 ∧
        (compileWithQualityControl true (fun i : ℕ => i)
            (fun i => [(40 : ℚ), 70, 55].getD i 0) (fun _ => false) 3).1
          = (some ((fun i : ℕ => i) j), [(40 : ℚ), 70, 55].getD j 0) ∧
        (∀ i, i < 3 → [(40 : ℚ), 70, 55].getD i 0 ≤ [(40 : ℚ), 70, 55].getD j 0) ∧
        (∀ i, i < j → [(40 : ℚ), 70, 55].getD i 0 < [(40 : ℚ), 70, 55].getD j 0)) :=
  ⟨by decide,
    controller_best_retention (fun i : ℕ => i) (fun i => [(40 : ℚ), 70, 55].getD i 0)
      (fun _ => false) 3 (by norm_num) (fun i _ => rfl)
      (by
        intro a
        rcases a with _ | _ | _ | a
        · decide
        · decide
        · decide
        · show 0 ≤ [(40 : ℚ), 70, 55].getD (a + 1 + 1 + 1) 0
          rw [List.getD_eq_default]
          simp)⟩

/-- C4: the regeneration loop makes at most `maxAttempts` synthesis calls; on
exit the best candidate is non-null (graceful best-effort degradation, even
when zero attempts pass); and if attempt `j` is the first to pass, the loop
stops right there after exactly `j + 1` synthesis calls, not burning the
remaining attempts. -/
theorem controller_termination {α : Type} (synth : ℕ → α) (score : α → ℚ)
    (passed : α → Bool) (maxAttempts : ℕ) (hmax : 0 < maxAttempts)
    (hsc : ∀ a, 0 ≤ score a) :
    (compileWithQualityControl true synth score passed maxAttempts).2 ≤ maxAttempts ∧
      ((compileWithQualityControl true synth score passed maxAttempts).1.1).isSome = true ∧
      (∀ j, j < maxAttempts → passed (synth j) = true →
        (∀ i, i < j → passed (synth i) = false) →
        (compileWithQualityControl true synth score passed maxAttempts).2 = j + 1) := by
  have hQA : compileWithQualityControl true synth score passed maxAttempts
      = qcGo synth score passed 0 maxAttempts (none, -1) 0 := by
    unfold compileWithQualityControl
    rw [if_pos rfl]
  refine ⟨?_, ?_, ?_⟩
  · rw [hQA]
    simpa using qcGo_calls_le synth score passed maxAttempts 0 (none, -1) 0
  · rw [hQA]
    obtain ⟨f, rfl⟩ : ∃ f, maxAttempts = f + 1 := ⟨maxAttempts - 1, by omega⟩
    have hupd : (scoreUpdate synth score (none, -1) 0).1.isSome = true := by
      unfold scoreUpdate
      rw [if_pos (lt_of_lt_of_le (by norm_num) (hsc (synth 0)))]
      rfl
    simp only [qcGo]
    split
    · exact hupd
    · exact qcGo_isSome_of_isSome synth score passed f 1 _ 1 hupd
  · intro j hj hpass hfirst
    rw [hQA,
      qcGo_first_pass synth score passed j maxAttempts 0 (none, -1) 0
        (fun k hk => by simpa using hfirst k hk) (by simpa using hpass) hj]
    show 0 + j + 1 = j + 1
    omega

/-- C4 witness: `controller_termination` at the default five-attempt budget
with a stub analyzer whose third attempt passes. -/
theorem controller_termination_witness :
    0 < maxRegenerationAttempts ∧
      ((compileWithQualityControl true (fun i : ℕ => i) (fun _ => (50 : ℚ))
            (fun i => i == 2) maxRegenerationAttempts).2 ≤ maxRegenerationAttempts ∧
        ((compileWithQualityControl true (fun i : ℕ => i) (fun _ => (50 : ℚ))
              (fun i => i == 2) maxRegenerationAttempts).1.1).isSome = true ∧
        (∀ j, j < maxRegenerationAttempts → (j == 2) = true →
          (∀ i, i < j → (i == 2) = false) →
          (compileWithQualityControl true (fun i : ℕ => i) (fun _ => (50 : ℚ))
              (fun i => i == 2) maxRegenerationAttempts).2 = j + 1)) :=
  ⟨by decide,
    controller_termination (fun i : ℕ => i) (fun _ => (50 : ℚ)) (fun i => i == 2)
      maxRegenerationAttempts (by decide) (fun _ => by norm_num)⟩

/-- C2 counterexample: on the empty buffer `analyze` does not return a
"silence" report with score 0 — its first metric pass raises
(`np.max` over a zero-size array), embedded as `none`. -/
theorem analyzeMetrics_empty_eq_none : analyzeMetrics 96000 ([] : List ℚ) = none := rfl

/-- C2 amended: `analyze` fails on the empty buffer (the counterexample
above); for every non-empty buffer the levels, clipping and silence passes
succeed and a metrics record is produced. -/
theorem analyzeMetrics_isSome_of_ne_nil (sr : ℕ) (s : List ℚ) (hs : s ≠ []) :
    (analyzeMetrics sr s).isSome = true := by
  cases s with
  | nil => exact absurd rfl hs
  | cons x xs => rfl

/-- C2 witness: `analyzeMetrics_isSome_of_ne_nil` at the one-sample buffer. -/
theorem analyzeMetrics_isSome_witness :
    [(1 : ℚ)] ≠ [] ∧ (analyzeMetrics 96000 [(1 : ℚ)]).isSome = true :=
  ⟨by simp, analyzeMetrics_isSome_of_ne_nil 96000 [(1 : ℚ)] (by simp)⟩

theorem countP_replicate_eq {α : Type} (p : α → Bool) (n : ℕ) (a : α) :
    (List.replicate n a).countP p = if p a = true then n else 0 := by
  induction n with
  | zero => simp
  | succ n ih =>
      rw [List.replicate_succ, List.countP_cons, ih]
      split <;> simp

theorem npMaxAbs_replicate {α : Type} [LinearOrderedField α] (n : ℕ) (c : α)
    (hn : n ≠ 0) : npMaxAbs (List.replicate n c) = |c| := by
  induction n with
  | zero => exact absurd rfl hn
  | succ n ih =>
      rw [List.replicate_succ]
      show max |c| (npMaxAbs (List.replicate n c)) = |c|
      by_cases h : n = 0
      · subst h
        show max |c| 0 = |c|
        exact max_eq_left (abs_nonneg c)
      · rw [ih h]
        exact max_self |c|

/-- Scanning a run of `m` silent samples while already inside a silence that
began at index `start` neither closes the region nor records anything until
the end of input, where the trailing run is flushed. -/
theorem silenceGapsGo_replicate_zero (sr : ℕ) :
    ∀ (m i start : ℕ) (acc : List (ℚ × ℚ)),
      silenceGapsGo sr i true start acc (List.replicate m 0)
        = if (1 : ℚ)/2 < ((i + m - start : ℕ) : ℚ) / (sr : ℚ) then
            acc ++ [(((start : ℕ) : ℚ) / (sr : ℚ), ((i + m - start : ℕ) : ℚ) / (sr : ℚ))]
          else acc := by
  intro m
  induction m with
  | zero =>
      intro i start acc
      simp only [List.replicate_zero, silenceGapsGo, Nat.add_zero, if_true]
  | succ m ih =>
      intro i start acc
      rw [List.replicate_succ]
      show silenceGapsGo sr i true start acc (0 :: List.replicate m 0) = _
      have hsil : isSilentSample 0 = true := by simp [isSilentSample]
      simp only [silenceGapsGo, hsil]
      rw [if_neg (by simp), if_neg (by simp)]
      rw [ih (i + 1) start acc]
      have harith : i + 1 + m = i + (m + 1) := by omega
      rw [harith]

/-- Scanning a silent sample while not inside a silence opens a region at the
current index (`in_silence = True`, `silence_start = i`). -/
theorem silenceGapsGo_enter_silence (sr i start : ℕ) (acc : List (ℚ × ℚ)) (x : ℚ)
    (xs : List ℚ) (hx : isSilentSample x = true) :
    silenceGapsGo sr i false start acc (x :: xs)
      = silenceGapsGo sr (i + 1) true i acc xs := by
  simp [silenceGapsGo, hx]

/-- The floored dB conversion at silence resolves to the finite sentinel
`20 * log10(1e-10) = -200`, not NaN and not `-inf`. -/
theorem db20_zero : db20 0 = -200 := by
  unfold db20 epsFloor
  rw [zero_add, one_div, Real.logb_inv, Real.logb_pow, Real.logb_self_eq_one (by norm_num)]
  norm_num

/-- C9: analyzing 10 seconds of all-zero samples at 96 kHz reports
`total_silence_percentage = 100.0`, exactly one silence gap `(0.0, 10.0)`
covering the whole duration (the trailing run is flushed after the scan
loop), and both `peak_level_db` and `rms_level_db` resolve to the finite
sentinel `20*log10(1e-10) = -200` dB — no NaN and no `-inf`, thanks to the
`1e-10` floor. -/
theorem silent_buffer_analysis :
    silenceGaps 96000 silentBuffer = [(0, 10)] ∧
      totalSilencePercentage silentBuffer = 100 ∧
      longestSilenceDuration 96000 silentBuffer = 10 ∧
      silenceGapCount 96000 silentBuffer = 1 ∧
      (analyzeLevels silentBuffer).map LevelsResult.peak_level_db = some (-200) ∧
      (analyzeLevels silentBuffer).map LevelsResult.rms_level_db = some (-200) := by
  have hgaps : silenceGaps 96000 silentBuffer = [(0, 10)] := by
    unfold silenceGaps silentBuffer
    rw [show (960000 : ℕ) = 959999 + 1 by norm_num, List.replicate_succ]
    show silenceGapsGo 96000 0 false 0 [] (0 :: List.replicate 959999 0) = _
    have hsil : isSilentSample 0 = true := by simp [isSilentSample]
    rw [silenceGapsGo_enter_silence 96000 0 0 [] 0 (List.replicate 959999 0) hsil]
    rw [silenceGapsGo_replicate_zero 96000 959999 1 0 []]
    rw [if_pos (by norm_num)]
    norm_num
  have hne : silentBuffer.isEmpty = false := by
    unfold silentBuffer
    rw [show (960000 : ℕ) = 959999 + 1 by norm_num, List.replicate_succ]
    rfl
  have hpeak : ((npMaxAbs silentBuffer : ℚ) : ℝ) = 0 := by
    have h : npMaxAbs silentBuffer = |(0 : ℚ)| := npMaxAbs_replicate 960000 0 (by norm_num)
    rw [h]
    norm_num
  have hrms : rmsOf silentBuffer = 0 := by
    unfold rmsOf silentBuffer
    rw [List.map_replicate, show ((0 : ℚ) ^ 2) = 0 by norm_num, List.sum_replicate,
      smul_zero, Rat.cast_zero, zero_div, Real.sqrt_zero]
  have hlevels : analyzeLevels silentBuffer
      = some ⟨db20 0, db20 0, db20 0 - db20 0,
          20 * Real.logb 10 (0 / ((0 : ℝ) + epsFloor))⟩ := by
    unfold analyzeLevels
    rw [hne]
    simp only [Bool.false_eq_true, if_false]
    rw [hpeak, hrms]
  refine ⟨hgaps, ?_, ?_, ?_, ?_, ?_⟩
  · unfold totalSilencePercentage silentBuffer
    rw [countP_replicate_eq, if_pos (by simp [isSilentSample]), List.length_replicate]
    norm_num
  · unfold longestSilenceDuration
    rw [hgaps]
    show max (10 : ℚ) 0 = 10
    norm_num
  · unfold silenceGapCount
    rw [hgaps]
    rfl
  · rw [hlevels]
    simp only [Option.map_some']
    rw [db20_zero]
  · rw [hlevels]
    simp only [Option.map_some']
    rw [db20_zero]

theorem drop_replicate_append {α : Type} (m : ℕ) (a : α) (l : List α) :
    (List.replicate m a ++ l).drop m = l := by
  induction m with
  | zero => rfl
  | succ m ih => rw [List.replicate_succ, List.cons_append, List.drop_succ_cons, ih]

theorem smoothStep_one {α : Type} [LinearOrderedField α] (aA aR : α) :
    smoothStep aA aR 1 1 = 1 := by
  unfold smoothStep
  rw [if_neg (lt_irrefl 1)]
  ring

theorem smoothGo_one_replicate {α : Type} [LinearOrderedField α] (aA aR : α)
    (k : ℕ) (rest : List α) :
    smoothGo aA aR 1 (List.replicate k 1 ++ rest)
      = List.replicate k 1 ++ smoothGo aA aR 1 rest := by
  induction k with
  | zero => simp
  | succ k ih =>
      rw [List.replicate_succ, List.cons_append]
      show smoothStep aA aR 1 1 :: smoothGo aA aR (smoothStep aA aR 1 1)
          (List.replicate k 1 ++ rest) = _
      rw [smoothStep_one, ih, List.cons_append]

theorem paddedEdge_singleton {α : Type} [LinearOrderedField α] (L : ℕ) (c : α) :
    paddedEdge L [c] = List.replicate (2 * L + 1) c := by
  unfold paddedEdge
  show List.replicate L c ++ [c] ++ List.replicate L c = _
  rw [List.append_assoc, show [c] ++ List.replicate L c = List.replicate (L + 1) c by
    rw [List.replicate_succ]; rfl]
  rw [← List.replicate_add]
  congr 1
  omega

theorem limiterRawGain_singleton {α : Type} [LinearOrderedField α] (ceiling : α)
    (L : ℕ) (hL : 1 ≤ L) (c : α) (hc : ceiling < |c|) :
    limiterRawGain ceiling L [c]
      = List.replicate L 1 ++ [ceiling / |c|] ++ List.replicate L 1 := by
  unfold limiterRawGain
  congr 1
  congr 1
  have hwin : ((paddedEdge L [c]).drop 0).take (2 * L) = List.replicate (2 * L) c := by
    rw [List.drop_zero, paddedEdge_singleton, List.take_replicate]
    congr 1
    omega
  rw [show List.length [c] = 1 from rfl, show List.range 1 = [0] from rfl,
    List.map_cons, List.map_nil, hwin, npMaxAbs_replicate (2 * L) c (by omega),
    if_pos hc]

/-- Full evaluation of the limiter on a constant one-sample buffer whose
magnitude exceeds the ceiling: the raw gain would cap it, but the smoothed
gain at the sample's position has only moved one attack step away from 1. -/
theorem applyLimiter_singleton {α : Type} [LinearOrderedField α] (aA aR ceiling : α)
    (L : ℕ) (hL : 1 ≤ L) (c : α) (h0 : 0 < ceiling) (hc : ceiling < |c|) :
    applyLimiter aA aR ceiling L [c]
      = [c * (aA * (ceiling / |c|) + (1 - aA) * 1)] := by
  have hg1 : ceiling / |c| < 1 :=
    (div_lt_one (lt_trans h0 hc)).mpr hc
  unfold applyLimiter
  rw [limiterRawGain_singleton ceiling L hL c hc]
  obtain ⟨m, rfl⟩ : ∃ m, L = m + 1 := ⟨L - 1, by omega⟩
  rw [List.append_assoc, List.replicate_succ, List.cons_append]
  show List.zipWith (fun x g => x * g) [c]
      ((1 :: smoothGo aA aR 1 (List.replicate m 1 ++ ([ceiling / |c|]
        ++ List.replicate (m + 1) 1))).drop (m + 1)) = _
  rw [smoothGo_one_replicate, List.drop_succ_cons, drop_replicate_append]
  show List.zipWith (fun x g => x * g) [c]
      (smoothStep aA aR 1 (ceiling / |c|)
        :: smoothGo aA aR (smoothStep aA aR 1 (ceiling / |c|))
             (List.replicate (m + 1) 1)) = _
  unfold smoothStep
  rw [if_pos hg1]
  rfl

theorem npMaxAbs_nonneg {α : Type} [LinearOrderedField α] (l : List α) :
    0 ≤ npMaxAbs l := by
  induction l with
  | nil => exact le_refl 0
  | cons x xs ih =>
      show 0 ≤ max |x| (npMaxAbs xs)
      exact le_trans ih (le_max_right _ _)

theorem abs_getD_le_npMaxAbs {α : Type} [LinearOrderedField α] :
    ∀ (l : List α) (j : ℕ), j < l.length → |l.getD j 0| ≤ npMaxAbs l := by
  intro l
  induction l with
  | nil => intro j h; simp at h
  | cons x xs ih =>
      intro j hj
      cases j with
      | zero =>
          show |x| ≤ max |x| (npMaxAbs xs)
          exact le_max_left _ _
      | succ j =>
          show |xs.getD j 0| ≤ max |x| (npMaxAbs xs)
          exact le_trans (ih j (by simpa using hj)) (le_max_right _ _)

theorem paddedEdge_length {α : Type} [LinearOrderedField α] (L : ℕ) (s : List α) :
    (paddedEdge L s).length = s.length + 2 * L := by
  unfold paddedEdge
  rw [List.length_append, List.length_append, List.length_replicate, List.length_replicate]
  omega

theorem window_getD_eq {α : Type} [LinearOrderedField α] (L i : ℕ) (s : List α)
    (hL : 1 ≤ L) (hi : i < s.length) :
    (((paddedEdge L s).drop i).take (2 * L)).getD L 0 = s.getD i 0 := by
  have hplen : (paddedEdge L s).length = s.length + 2 * L := paddedEdge_length L s
  have h1 : L < (((paddedEdge L s).drop i).take (2 * L)).length := by
    rw [List.length_take, List.length_drop, hplen]
    omega
  rw [List.getD_eq_getElem _ _ h1, List.getD_eq_getElem _ _ hi]
  rw [List.getElem_take, List.getElem_drop]
  simp only [paddedEdge]
  rw [List.getElem_append_left (by rw [List.length_append, List.length_replicate]; omega)]
  rw [List.getElem_append_right (by rw [List.length_replicate]; omega)]
  congr 1
  rw [List.length_replicate]
  omega

theorem limiterRawGain_getD {α : Type} [LinearOrderedField α] (ceiling : α)
    (L i : ℕ) (s : List α) (hi : i < s.length) :
    (limiterRawGain ceiling L s).getD (i + L) 1
      = if ceiling < npMaxAbs (((paddedEdge L s).drop i).take (2 * L)) then
          ceiling / npMaxAbs (((paddedEdge L s).drop i).take (2 * L))
        else 1 := by
  unfold limiterRawGain
  rw [List.append_assoc]
  rw [List.getD_append_right _ _ _ _ (by rw [List.length_replicate]; omega)]
  rw [List.length_replicate, show i + L - L = i by omega]
  rw [List.getD_append _ _ _ _ (by rw [List.length_map, List.length_range]; omega)]
  rw [List.getD_eq_getElem _ _ (by rw [List.length_map, List.length_range]; omega)]
  rw [List.getElem_map, List.getElem_range]

/-- C1 amended (pre-smoothing gain bound): for every buffer and every sample
index, the raw look-ahead gain computed at that sample's padded position
would cap it at the ceiling: `|s[i]| * gain[i + L] ≤ ceiling`. -/
theorem limiterRawGain_enforces_ceiling {α : Type} [LinearOrderedField α]
    (s : List α) (ceiling : α) (L i : ℕ) (hc : 0 < ceiling) (hL : 1 ≤ L)
    (hi : i < s.length) :
    |s.getD i 0| * (limiterRawGain ceiling L s).getD (i + L) 1 ≤ ceiling := by
  rw [limiterRawGain_getD ceiling L i s hi]
  have hwl : L < (((paddedEdge L s).drop i).take (2 * L)).length := by
    rw [List.length_take, List.length_drop, paddedEdge_length]
    omega
  have hmem : |s.getD i 0| ≤ npMaxAbs (((paddedEdge L s).drop i).take (2 * L)) := by
    rw [← window_getD_eq L i s hL hi]
    exact abs_getD_le_npMaxAbs _ L hwl
  split_ifs with h
  · have hpos : 0 < npMaxAbs (((paddedEdge L s).drop i).take (2 * L)) :=
      lt_trans hc h
    rw [div_eq_mul_inv, ← mul_assoc]
    rw [show |s.getD i 0| * ceiling = ceiling * |s.getD i 0| from mul_comm _ _]
    rw [mul_assoc]
    calc ceiling * (|s.getD i 0| * (npMaxAbs (((paddedEdge L s).drop i).take (2 * L)))⁻¹)
        ≤ ceiling * 1 := by
          apply mul_le_mul_of_nonneg_left _ (le_of_lt hc)
          rw [← div_eq_mul_inv]
          exact (div_le_one hpos).mpr hmem
      _ = ceiling := mul_one ceiling
  · rw [mul_one]
    exact le_trans hmem (not_lt.mp h)

/-- C1 amended witness: the raw-gain bound at a concrete two-sample buffer. -/
theorem limiterRawGain_enforces_ceiling_witness :
    (0 : ℚ) < 19/20 ∧ 1 ≤ 1 ∧ 0 < [(2 : ℚ), 1/2].length ∧
      |[(2 : ℚ), 1/2].getD 0 0| * (limiterRawGain ((19 : ℚ)/20) 1 [2, 1/2]).getD (0 + 1) 1
        ≤ 19/20 :=
  ⟨by norm_num, le_refl 1, by norm_num,
    limiterRawGain_enforces_ceiling [(2 : ℚ), 1/2] (19/20) 1 0 (by norm_num)
      (le_refl 1) (by norm_num)⟩

/-- C1 counterexample: pass 5's limiter does not enforce the 0.95 ceiling.
On the constant buffer `[10.0]` at the default 96 kHz configuration the only
output sample is `10 * (1 - alphaA * (1 - 0.095)) > 9.9 > 0.95`: the one-pole
attack smoothing of the gain curve (alphaA = 1 - exp(-1/96) ≤ 1/96) leaves
the applied gain near 1 at the moment the reduction is needed. -/
theorem limiter_output_exceeds_ceiling :
    limiterCeiling < (applyLimiterAt 96000 [10]).getD 0 0 ∧
      (applyLimiterAt 96000 [10]).length = 1 := by
  have habs : |(10 : ℝ)| = 10 := abs_of_pos (by norm_num)
  have hL : lookaheadSamples 96000 = 480 := by norm_num [lookaheadSamples]
  have hatt : attackSamples 96000 = 96 := by norm_num [attackSamples]
  have haA : limiterAlphaA 96000 = 1 - Real.exp (-1 / (96 : ℝ)) := by
    unfold limiterAlphaA
    rw [hatt]
    norm_num
  have haA_nonneg : 0 ≤ limiterAlphaA 96000 := by
    rw [haA]
    have h1 : Real.exp (-1 / (96 : ℝ)) ≤ 1 := by
      rw [Real.exp_le_one_iff]
      norm_num
    linarith
  have haA_le : limiterAlphaA 96000 ≤ 1 / 96 := by
    rw [haA]
    have h2 := Real.add_one_le_exp (-1 / (96 : ℝ))
    linarith
  have happ : applyLimiterAt 96000 [10]
      = [10 * (limiterAlphaA 96000 * (limiterCeiling / |(10 : ℝ)|)
          + (1 - limiterAlphaA 96000) * 1)] := by
    unfold applyLimiterAt
    rw [hL]
    exact applyLimiter_singleton _ _ _ 480 (by norm_num) 10
      (by unfold limiterCeiling; norm_num)
      (by rw [habs]; unfold limiterCeiling; norm_num)
  constructor
  · rw [happ]
    show limiterCeiling < 10 * (limiterAlphaA 96000 * (limiterCeiling / |(10 : ℝ)|)
        + (1 - limiterAlphaA 96000) * 1)
    rw [habs]
    unfold limiterCeiling
    nlinarith [haA_le, haA_nonneg]
  · rw [happ]
    rfl

/-- A single forward pass over a 3-sample impulse through a bandpass-shaped
section (numerator `k*(1, 0, -1)`, non-trivial feedback). -/
theorem sosfilt_impulse_eval :
    sosfilt [⟨(1 : ℚ)/2, 0, -(1 : ℚ)/2, -(1 : ℚ)/4, (1 : ℚ)/8⟩] [1, 0, 0]
      = [1/2, 1/8, -17/32] := by
  show biquadGo _ 0 0 [1, 0, 0] = _
  norm_num [biquadGo]

/-- The forward-backward (zero-phase) application of the same section to the
same impulse. -/
theorem sosfiltForwardBackward_impulse_eval :
    sosfiltForwardBackward [⟨(1 : ℚ)/2, 0, -(1 : ℚ)/2, -(1 : ℚ)/4, (1 : ℚ)/8⟩] [1, 0, 0]
      = [561/1024, -1/256, -17/64] := by
  unfold sosfiltForwardBackward
  rw [sosfilt_impulse_eval]
  norm_num [sosfilt, biquad, biquadGo]

/-- C8 counterexample: the band extraction as implemented (a single forward
`sosfilt` pass) differs from the zero-phase forward-backward application
already at a concrete second-order section and a 3-sample impulse — the two
application modes are distinct operations, so the implemented extraction is
not "applying the filter forward and then backward". -/
theorem sosfilt_ne_forwardBackward :
    sosfilt [⟨(1 : ℚ)/2, 0, -(1 : ℚ)/2, -(1 : ℚ)/4, (1 : ℚ)/8⟩] [1, 0, 0]
      ≠ sosfiltForwardBackward [⟨(1 : ℚ)/2, 0, -(1 : ℚ)/2, -(1 : ℚ)/4, (1 : ℚ)/8⟩]
          [1, 0, 0] := by
  rw [sosfilt_impulse_eval, sosfiltForwardBackward_impulse_eval]
  intro hco
  exact absurd (List.cons_eq_cons.mp hco).1 (by norm_num)

theorem biquadGo_take {α : Type} [LinearOrderedField α] (c : SOS α) :
    ∀ (n : ℕ) (s1 s2 : α) (x y : List α), x.take n = y.take n →
      (biquadGo c s1 s2 x).take n = (biquadGo c s1 s2 y).take n := by
  intro n
  induction n with
  | zero => intro s1 s2 x y _; rfl
  | succ n ih =>
      intro s1 s2 x y hxy
      cases x with
      | nil =>
          cases y with
          | nil => rfl
          | cons b ys => simp at hxy
      | cons a xs =>
          cases y with
          | nil => simp at hxy
          | cons b ys =>
              rw [List.take_succ_cons, List.take_succ_cons] at hxy
              have hab : a = b := (List.cons_eq_cons.mp hxy).1
              have htails : xs.take n = ys.take n := (List.cons_eq_cons.mp hxy).2
              subst hab
              show ((c.b0 * a + s1) :: biquadGo c _ _ xs).take (n + 1)
                  = ((c.b0 * a + s1) :: biquadGo c _ _ ys).take (n + 1)
              rw [List.take_succ_cons, List.take_succ_cons, ih _ _ xs ys htails]

/-- C8 amended: the band extraction used by the mastering chain is the single
forward `sosfilt` pass, which is causal — two inputs agreeing on their first
`n` samples filter to outputs agreeing on their first `n` samples — unlike
the zero-phase forward-backward filtering the spec describes (separated from
it by the counterexample above). -/
theorem sosfilt_causal {α : Type} [LinearOrderedField α] (secs : List (SOS α))
    (x y : List α) (n : ℕ) (hxy : x.take n = y.take n) :
    (sosfilt secs x).take n = (sosfilt secs y).take n := by
  induction secs generalizing x y with
  | nil => exact hxy
  | cons c cs ih =>
      show (sosfilt cs (biquad c x)).take n = (sosfilt cs (biquad c y)).take n
      exact ih (biquad c x) (biquad c y) (biquadGo_take c n 0 0 x y hxy)

/-- C8 amended witness: causality at a concrete section and two inputs
sharing only their first sample. -/
theorem sosfilt_causal_witness :
    [(1 : ℚ), 2].take 1 = [(1 : ℚ), 3].take 1 ∧
      (sosfilt [⟨(1 : ℚ)/2, 0, -(1 : ℚ)/2, -(1 : ℚ)/4, (1 : ℚ)/8⟩] [1, 2]).take 1
        = (sosfilt [⟨(1 : ℚ)/2, 0, -(1 : ℚ)/2, -(1 : ℚ)/4, (1 : ℚ)/8⟩] [1, 3]).take 1 :=
  ⟨by norm_num,
    sosfilt_causal [⟨(1 : ℚ)/2, 0, -(1 : ℚ)/2, -(1 : ℚ)/4, (1 : ℚ)/8⟩]
      [1, 2] [1, 3] 1 (by norm_num)⟩

end DjCli
